import Mathlib

/-!
Verification development for the svelte-preprocess dispatcher
(`src/index.ts`, given here as the second half of `src/transformers/scss.ts`).

The TypeScript source is shallowly embedded: JS strings are `List Char`,
JS objects holding options or attributes are association lists with
`Object.assign` overwrite semantics, promises are collapsed to values with
`Option` capturing rejection (a missing transformer module), and the
dynamic `import` of transformer modules is an explicit environment mapping
module names to transformer functions.  Alongside each result we thread the
list of module names whose dynamic load was attempted, so that "no
transformer module is loaded" is an observable fact.
-/

namespace SveltePreprocess

/-- Value of one option key: the source stores booleans (for example the
`indentedSyntax` flag) and strings in option objects. -/
inductive OptVal where
  | vB (b : Bool)
  | vS (s : String)
deriving DecidableEq

/-- A JS options object: association list of option keys, built exclusively
through `setEntry` (JS property assignment). -/
abbrev OptsObj := List (String × OptVal)

/-- Value of one parsed markup attribute: a string, or `true` for a
valueless token (source line: `acc[name] = value ? ... : true`). -/
inductive AttrVal where
  | tru
  | str (s : String)
deriving DecidableEq

/-- Parsed attributes object. -/
abbrev Attrs := List (String × AttrVal)

/-- The `Processed` result shape every transformer returns: `code` plus
optional `map`, `dependencies`, `diagnostics`.  Absent fields are `none`,
never empty containers. -/
structure Processed where
  code : List Char
  map : Option String := none
  dependencies : Option (List String) := none
  diagnostics : Option (List String) := none
deriving DecidableEq

/-- The uniform argument shape handed to a transformer
(`{content, filename, map, attributes, options}`). -/
structure TransformerArgs where
  content : List Char
  filename : Option String := none
  map : Option String := none
  attributes : Attrs := []
  options : Option OptsObj := none

/-- `TransformerOptions`: the tagged union over the disabling marker
(`false`), the bare enabling marker (`true`), a user-supplied transformer
function, and a plain options object. -/
inductive TOpts where
  | off
  | boolTrue
  | fn (f : TransformerArgs → Processed)
  | obj (o : OptsObj)

/-- The user option bag `transformers` (the `rest` of the configuration),
mapping language/feature names to their options. -/
abbrev Transformers := List (String × TOpts)

/-- The environment of dynamically importable transformer modules
(`./transformers/<name>`), external collaborators of this layer. -/
abbrev Modules := List (String × (TransformerArgs → Processed))

/-- The normalized record produced by the tag-info extractor. -/
structure TagInfo where
  content : List Char
  filename : Option String := none
  lang : Option String := none
  aliasName : Option String := none
  dependencies : Option (List String) := none
  attributes : Attrs := []

/-- The raw block handed to a per-block preprocessor: its content can be
absent (a self-closing markup container captures no inner code). -/
structure SvelteFile where
  content : Option (List Char)
  attributes : Attrs := []
  filename : Option String := none

/-- The three block categories. -/
inductive BlockType where
  | markup
  | script
  | style
deriving DecidableEq

/-- The configuration closure of `autoPreprocess` together with the ambient
environment it reads: the language alias registry, the source-map option table, the
loadable transformer modules, and whether the optional `postcss` tooling is
installed.  Registry, source-map table and module environment live in
`src/modules/*`, which is outside the given sources, so they are kept as
explicit data here. -/
structure Context where
  markupTagName : List Char := "template".toList
  preserve : List String := []
  defaultMarkup : String := "html"
  defaultStyle : String := "css"
  defaultScript : String := "javascript"
  sourceMap : Bool := false
  transformers : Transformers := []
  registry : List (String × String) := []
  smMap : List (String × String × OptVal) := []
  modules : Modules := []
  postcssInstalled : Bool := false

/-- The per-category default language record
(`{markup: html, style: css, script: javascript, ...defaults}`). -/
def Context.defaultFor (ctx : Context) : BlockType → String
  | .markup => ctx.defaultMarkup
  | .script => ctx.defaultScript
  | .style => ctx.defaultStyle

/-- JS property assignment `o[k] = v`: overwrite the first binding of `k`
in place, else append the new binding. -/
def setEntry {α : Type} : List (String × α) → String → α → List (String × α)
  | [], k, v => [(k, v)]
  | (k₁, v₁) :: t, k, v =>
    if k₁ = k then (k, v) :: t else (k₁, v₁) :: setEntry t k v

/-- `Object.assign(target, src)`: assign every key of `src` into `target`
in order, later keys winning. -/
def assignObj (target src : OptsObj) : OptsObj :=
  src.foldl (fun acc p => setEntry acc p.1 p.2) target

/-- Modelled from the spec: `getLanguageFromAlias` of `src/modules/language`
is not under `src/`.  §4.1: "returns the mapped canonical name, or the alias
itself unchanged if unmapped (identity fallback — never fails)". -/
def getLanguageFromAlias (registry : List (String × String)) (a : String) : String :=
  (registry.lookup a).getD a

/-- Modelled from the spec: `concat` of `src/modules/concat` is not under
`src/`.  §4.5: both absent gives `undefined`, exactly one present gives that
one unchanged, both present gives the order-preserving concatenation. -/
def concat (a b : Option (List String)) : Option (List String) :=
  match a, b with
  | none, none => none
  | some x, none => some x
  | none, some y => some y
  | some x, some y => some (x ++ y)

/-- Modelled from the spec: `prepareContent` of `src/modules/prepareContent`
is not under `src/`.  §4.4 step 5: "Normalize content (strip byte-order
mark / apply other content preparation) using the resolved options as
context"; modelled as stripping one leading byte-order mark. -/
def prepareContent (_options : TOpts) (content : List Char) : List Char :=
  match content with
  | c :: rest => if c = Char.ofNat 0xFEFF then rest else c :: rest
  | [] => []

/-- The alias-specific option override table (source constant
`ALIAS_OPTION_OVERRIDES`): the `sass` alias of the shared sass compiler
forces the indentation-based input syntax. -/
def ALIAS_OPTION_OVERRIDES : List (String × OptsObj) :=
  [("sass", [("indentedSyntax", OptVal.vB true)])]

/-- JS truthiness of an optional transformer-options value: `undefined` and
`false` are falsy; `true`, functions and all objects are truthy. -/
def truthyOpt : Option TOpts → Bool
  | none => false
  | some .off => false
  | some _ => true

/-- The collapse `typeof options === 'boolean' ? null : options` applied to
the options passed on to a loaded transformer module. -/
def optionsToNullable : TOpts → Option OptsObj
  | .obj o => some o
  | _ => none

/-- Whether an option entry is a user function or the disabling marker (the
two shapes that short-circuit option resolution). -/
def isFnOff : Option TOpts → Bool
  | some (.fn _) => true
  | some .off => true
  | _ => false

/-- `runTransformer`: the disabling marker passes content through, a
function option is invoked directly, anything else dynamically loads the
transformer module named `name` and invokes it.  The second component
records the module names whose dynamic load was performed; a missing module
is the rejected promise (`none`). -/
def runTransformer (modules : Modules) (name : String) (options : TOpts)
    (args : TransformerArgs) : Option Processed × List String :=
  match options with
  | .off => (some { code := args.content }, [])
  | .fn f =>
    (some (f { content := args.content, map := args.map,
               filename := args.filename, attributes := args.attributes }), [])
  | _ =>
    match modules.lookup name with
    | none => (none, [name])
    | some t =>
      (some (t { content := args.content, filename := args.filename,
                 map := args.map, attributes := args.attributes,
                 options := optionsToNullable options }), [name])

/-- The conditional source-map injection of `getTransformerOptions` (source
lines 207–211): when the global `sourceMap` flag is set and `name` has a
registered source-map option mapping, set that option's key. -/
def smStep (ctx : Context) (name : String) (opts : OptsObj) : OptsObj :=
  if ctx.sourceMap then
    match ctx.smMap.lookup name with
    | some (p, v) => setEntry opts p v
    | none => opts
  else opts

/-- The object-merging path of `getTransformerOptions` (source lines
193–213): start from an empty object, shallow-merge name-keyed object
options, then — for a genuine alias — the alias-override table entry and
alias-keyed object options, then inject the source-map option of `name`
when the global `sourceMap` flag is set. -/
def mergedOpts (ctx : Context) (name : String) (aliasName : Option String)
    (nameOpts aliasOpts : Option TOpts) : OptsObj :=
  let opts : OptsObj :=
    match nameOpts with
    | some (.obj o) => assignObj [] o
    | _ => []
  let opts :=
    if aliasName ≠ some name then
      let opts :=
        match aliasName.bind (fun a => ALIAS_OPTION_OVERRIDES.lookup a) with
        | some ov => assignObj opts ov
        | none => opts
      match aliasOpts with
      | some (.obj ao) => assignObj opts ao
      | _ => opts
    else opts
  smStep ctx name opts

/-- `getTransformerOptions(name, alias)`: function options win (alias-keyed
checked before name-keyed), then the disabling marker, otherwise the
object merge of `mergedOpts`. -/
def getTransformerOptions (ctx : Context) (name : String) (aliasName : Option String) : TOpts :=
  let nameOpts := ctx.transformers.lookup name
  let aliasOpts := aliasName.bind (fun a => ctx.transformers.lookup a)
  match aliasOpts, nameOpts with
  | some (.fn f), _ => .fn f
  | _, some (.fn f) => .fn f
  | some .off, _ => .off
  | _, some .off => .off
  | _, _ => .obj (mergedOpts ctx name aliasName nameOpts aliasOpts)

/-- Key lookup inside a resolved options value, yielding a value only when
the options are a plain object. -/
def TOpts.lookupKey : TOpts → String → Option OptVal
  | .obj o, k => o.lookup k
  | _, _ => none

/-- The effective language pair of a block (source lines 229–232): when the
extracted `lang` or `aliasName` is absent, the aliasName falls back to the category
default and the language to its registry resolution. -/
def effectiveLang (ctx : Context) (ty : BlockType) (info : TagInfo) :
    Option String × Option String :=
  if info.lang = none ∨ info.aliasName = none then
    let a := ctx.defaultFor ty
    (some (getLanguageFromAlias ctx.registry a), some a)
  else (info.lang, info.aliasName)

/-- The body of the per-block preprocessor built by
`getTransformerTo(type, targetLanguage)`, as a function of the extracted
tag info: preserve-list pass-through, option resolution, content
preparation, the same-language skip, and transformer invocation with
dependency merging. -/
def getTransformerTo (ctx : Context) (ty : BlockType) (targetLanguage : String)
    (info : TagInfo) : Option Processed × List String :=
  let la := effectiveLang ctx ty info
  let lang := la.1.getD ""
  let aliasName := la.2.getD ""
  if ctx.preserve.contains lang || ctx.preserve.contains aliasName then
    (some { code := info.content }, [])
  else
    let transformerOptions := getTransformerOptions ctx lang (some aliasName)
    let content := prepareContent transformerOptions info.content
    if lang = targetLanguage then
      (some { code := content, dependencies := info.dependencies }, [])
    else
      match runTransformer ctx.modules lang transformerOptions
          { content := content, filename := info.filename,
            attributes := info.attributes } with
      | (none, l) => (none, l)
      | (some t, l) =>
        (some { t with dependencies := concat info.dependencies t.dependencies }, l)

/-- The markup preprocessor `getTransformerTo('markup', 'html')`, composed
with a tag-info extractor `gti` (an external collaborator). -/
def markupTransformer (ctx : Context) (gti : SvelteFile → TagInfo)
    (f : SvelteFile) : Option Processed × List String :=
  getTransformerTo ctx BlockType.markup "html" (gti f)

/-- The style preprocessor `getTransformerTo('style', 'css')`, composed
with a tag-info extractor. -/
def styleTransformer (ctx : Context) (gti : SvelteFile → TagInfo)
    (f : SvelteFile) : Option Processed × List String :=
  getTransformerTo ctx BlockType.style "css" (gti f)

/-- Lowercase one character, mirroring `toLocaleLowerCase` on the ASCII
letters the container tag name is made of. -/
def lowerChar (c : Char) : Char :=
  if 65 ≤ c.toNat ∧ c.toNat ≤ 90 then Char.ofNat (c.toNat + 32) else c

/-- Lowercasing of the configured tag name
(`markupTagName.toLocaleLowerCase()`, source line 165). -/
def lowerStr (s : List Char) : List Char :=
  s.map lowerChar

/-- The slice of `s` of length `len` starting at index `i`. -/
def sub (s : List Char) (i len : Nat) : List Char :=
  (s.drop i).take len

/-- Whether `pat` occurs in `s` starting exactly at index `i`. -/
def occursAt (pat s : List Char) (i : Nat) : Bool :=
  pat.isPrefixOf (s.drop i)

/-- The literal `<tagName` the markup pattern starts with. -/
def openTag (tag : List Char) : List Char :=
  '<' :: tag

/-- The literal closing tag of the markup pattern. -/
def closeTag (tag : List Char) : List Char :=
  '<' :: '/' :: (tag ++ ['>'])

/-- Search downward from `n - 1` for the greatest index at least `start` at
which `pat` occurs in `s` (the backtracking of the greedy inner capture of
the markup pattern). -/
def lastOccurAux (pat s : List Char) (start : Nat) : Nat → Option Nat
  | 0 => none
  | n + 1 =>
    if start ≤ n ∧ occursAt pat s n = true then some n
    else lastOccurAux pat s start n

/-- The greatest index at least `start` at which `pat` occurs in `s`. -/
def lastOccur (pat s : List Char) (start : Nat) : Option Nat :=
  lastOccurAux pat s start (s.length + 1)

/-- One match of the markup container pattern
`<tagName([\s\S]*?)(?:>([\s\S]*)<\/tagName>|\/>)` (source lines 175–177):
start index and full length of the matched span, the captured attribute
text, and the captured inner content (`none` for the self-closing
alternative, whose capture group is undefined). -/
structure MarkupMatch where
  index : Nat
  fullLen : Nat
  attrs : List Char
  inner : Option (List Char)
deriving DecidableEq

/-- First alternative `>([\s\S]*)<\/tagName>` of the markup pattern at
position `j`: a literal `>`, then the greedy inner capture, which ends at
the last occurrence of the closing tag.  Returns the captured inner content
and the end position of the whole alternative. -/
def tryAlt1 (tag s : List Char) (j : Nat) : Option (Option (List Char) × Nat) :=
  if (s.drop j).head? = some '>' then
    match lastOccur (closeTag tag) s (j + 1) with
    | some k => some (some (sub s (j + 1) (k - (j + 1))), k + (closeTag tag).length)
    | none => none
  else none

/-- Second alternative `\/>` of the markup pattern at position `j`: the
self-closing form, capturing no inner content. -/
def tryAlt2 (s : List Char) (j : Nat) : Option (Option (List Char) × Nat) :=
  if (s.drop j).head? = some '/' ∧ (s.drop (j + 1)).head? = some '>' then
    some (none, j + 2)
  else none

/-- The alternation of the markup pattern, first alternative preferred. -/
def tryAlts (tag s : List Char) (j : Nat) : Option (Option (List Char) × Nat) :=
  match tryAlt1 tag s j with
  | some r => some r
  | none => tryAlt2 s j

/-- Attempt the part of the markup pattern after `<tagName` at start index
`i`: the lazy attribute capture `([\s\S]*?)` tries attribute lengths in
increasing order, the alternation deciding each attempt. -/
def tryAttrs (tag s : List Char) (i : Nat) : Option MarkupMatch :=
  (List.range (s.length + 1)).findSome? fun attrLen =>
    let j := i + 1 + tag.length + attrLen
    match tryAlts tag s j with
    | some (inner, endPos) =>
      some ⟨i, endPos - i, sub s (i + 1 + tag.length) attrLen, inner⟩
    | none => none

/-- Attempt the markup pattern at start index `i`. -/
def tryAt (tag s : List Char) (i : Nat) : Option MarkupMatch :=
  if occursAt (openTag tag) s i then tryAttrs tag s i else none

/-- `content.match(markupPattern)`: the leftmost match of the markup
container pattern, with JS backtracking order (lazy attributes, greedy
inner content, first alternative preferred). -/
def findMarkupMatch (tag s : List Char) : Option MarkupMatch :=
  (List.range (s.length + 1)).findSome? fun i => tryAt tag s i

/-- Whitespace for the attribute-string split `split(/\s+/)`. -/
def jsIsSpace (c : Char) : Bool :=
  c = ' ' ∨ c = '\t' ∨ c = '\n' ∨ c = '\r' ∨ c = Char.ofNat 11 ∨ c = Char.ofNat 12

/-- `value.replace(/['"]/g, '')`: remove every quote character. -/
def stripQuotes (v : List Char) : List Char :=
  v.filter fun c => ¬(c = '\'' ∨ c = '"')

/-- Parse the captured attribute text into an attributes object (source
lines 286–296): split on whitespace, drop empty tokens, split each token on
`=` taking the first two segments, strip quotes from a non-empty value, and
map valueless or empty-valued tokens to boolean `true`. -/
def parseAttributes (s : List Char) : Attrs :=
  ((s.splitOnP jsIsSpace).filter (· ≠ [])).foldl
    (fun acc tok =>
      let parts := tok.splitOn '='
      let name := String.mk (parts.headD [])
      match parts[1]? with
      | some v =>
        if v = [] then setEntry acc name AttrVal.tru
        else setEntry acc name (AttrVal.str (String.mk (stripQuotes v)))
      | none => setEntry acc name AttrVal.tru)
    []

/-- The optional `replace` pre-pass of the markup entry point (source lines
266–274): when a truthy `replace` option is configured, run it as a
transformer over the whole document and continue with its output code. -/
def replaceStage (ctx : Context) (content : List Char) (filename : Option String) :
    Option (List Char) × List String :=
  if truthyOpt (ctx.transformers.lookup "replace") then
    match runTransformer ctx.modules "replace"
        ((ctx.transformers.lookup "replace").getD TOpts.off)
        { content := content, filename := filename } with
    | (none, l) => (none, l)
    | (some t, l) => (some t.code, l)
  else (some content, [])

/-- The exported `markup` entry point: optional `replace` pre-pass, then
either the whole-document fallback (no container match) or the splice of
the transformed inner content into the original document at the match's
start offset and length (source lines 265–311). -/
def markup (ctx : Context) (gti : SvelteFile → TagInfo) (content : List Char)
    (filename : Option String) : Option Processed × List String :=
  match replaceStage ctx content filename with
  | (none, l1) => (none, l1)
  | (some c, l1) =>
    match findMarkupMatch (lowerStr ctx.markupTagName) c with
    | none =>
      match markupTransformer ctx gti { content := some c, attributes := [], filename := filename } with
      | (r, l2) => (r, l1 ++ l2)
    | some m =>
      match markupTransformer ctx gti
          { content := m.inner, attributes := parseAttributes m.attrs, filename := filename } with
      | (none, l2) => (none, l1 ++ l2)
      | (some t, l2) =>
        (some { code := c.take m.index ++ t.code ++ c.drop (m.index + m.fullLen),
                map := t.map, dependencies := t.dependencies }, l1 ++ l2)

/-- The conditional `postcss` stage of the style entry point (source lines
362–372): run only when a truthy `postcss` option is configured, merging
its dependencies into the running list. -/
def postcssStage (ctx : Context) (attributes : Attrs) (filename : Option String)
    (code : List Char) (map : Option String) (deps : Option (List String)) :
    Option (List Char × Option String × Option (List String)) × List String :=
  if truthyOpt (ctx.transformers.lookup "postcss") then
    match runTransformer ctx.modules "postcss"
        (getTransformerOptions ctx "postcss" none)
        { content := code, filename := filename, map := map, attributes := attributes } with
    | (none, l) => (none, l)
    | (some t, l) => (some (t.code, t.map, concat deps t.dependencies), l)
  else (some (code, map, deps), [])

/-- The unconditional global-style stage of the style entry point (source
lines 374–381): only its code and map are taken. -/
def globalStyleStage (ctx : Context) (attributes : Attrs) (filename : Option String)
    (code : List Char) (map : Option String) :
    Option (List Char × Option String) × List String :=
  match runTransformer ctx.modules "globalStyle"
      (getTransformerOptions ctx "globalStyle" none)
      { content := code, filename := filename, map := map, attributes := attributes } with
  | (none, l) => (none, l)
  | (some t, l) => (some (t.code, t.map), l)

/-- The exported `style` entry point (source lines 347–385): the style
pipeline, then — when the optional postcss tooling is installed — the
conditional `postcss` stage and the unconditional global-style stage,
returning `code`, `map` and `dependencies`. -/
def style (ctx : Context) (gti : SvelteFile → TagInfo) (content : List Char)
    (attributes : Attrs) (filename : Option String) : Option Processed × List String :=
  match styleTransformer ctx gti { content := some content, attributes := attributes, filename := filename } with
  | (none, l0) => (none, l0)
  | (some tr, l0) =>
    if ctx.postcssInstalled then
      match postcssStage ctx attributes filename tr.code tr.map tr.dependencies with
      | (none, l1) => (none, l0 ++ l1)
      | (some (c1, m1, d1), l1) =>
        match globalStyleStage ctx attributes filename c1 m1 with
        | (none, l2) => (none, l0 ++ l1 ++ l2)
        | (some (c2, m2), l2) =>
          (some { code := c2, map := m2, dependencies := d1 }, l0 ++ l1 ++ l2)
    else (some { code := tr.code, map := tr.map, dependencies := tr.dependencies }, l0)

/-! Lemmas about JS object assignment. -/

theorem lookup_cons_ne {α : Type} (t : List (String × α)) (k k₁ : String) (v₁ : α)
    (h : k ≠ k₁) : ((k₁, v₁) :: t).lookup k = t.lookup k := by
  simp [List.lookup_cons, beq_false_of_ne h]

theorem lookup_setEntry_self {α : Type} (o : List (String × α)) (k : String) (v : α) :
    (setEntry o k v).lookup k = some v := by
  induction o with
  | nil => simp [setEntry]
  | cons p t ih =>
    rcases p with ⟨k₁, v₁⟩
    by_cases hk : k₁ = k
    · subst hk; simp [setEntry]
    · rw [setEntry, if_neg hk, lookup_cons_ne _ _ _ _ (Ne.symm hk), ih]

theorem lookup_setEntry_ne {α : Type} (o : List (String × α)) (k k' : String) (v : α)
    (h : k' ≠ k) : (setEntry o k v).lookup k' = o.lookup k' := by
  induction o with
  | nil => simp [setEntry, lookup_cons_ne _ _ _ _ h]
  | cons p t ih =>
    rcases p with ⟨k₁, v₁⟩
    by_cases hk : k₁ = k
    · subst hk
      rw [setEntry, if_pos rfl, lookup_cons_ne _ _ _ _ h, lookup_cons_ne _ _ _ _ h]
    · by_cases hk' : k' = k₁
      · subst hk'
        rw [setEntry, if_neg hk]
        simp
      · rw [setEntry, if_neg hk, lookup_cons_ne _ _ _ _ hk', lookup_cons_ne _ _ _ _ hk', ih]

theorem lookup_eq_none_of_not_mem {α : Type} (l : List (String × α)) (k : String)
    (h : k ∉ l.map Prod.fst) : l.lookup k = none := by
  induction l with
  | nil => simp
  | cons p t ih =>
    rcases p with ⟨k₁, v₁⟩
    simp only [List.map_cons, List.mem_cons] at h
    push_neg at h
    rw [lookup_cons_ne _ _ _ _ h.1, ih h.2]

theorem assignObj_cons (target : OptsObj) (k : String) (v : OptVal) (t : OptsObj) :
    assignObj target ((k, v) :: t) = assignObj (setEntry target k v) t := rfl

theorem lookup_assignObj_of_none (src target : OptsObj) (k : String)
    (h : src.lookup k = none) :
    (assignObj target src).lookup k = target.lookup k := by
  induction src generalizing target with
  | nil => rfl
  | cons p t ih =>
    rcases p with ⟨k₁, v₁⟩
    by_cases hk : k₁ = k
    · subst hk; simp at h
    · rw [assignObj_cons, ih]
      · exact lookup_setEntry_ne target k₁ k v₁ (Ne.symm hk)
      · rwa [lookup_cons_ne _ _ _ _ (Ne.symm hk)] at h

theorem lookup_assignObj_of_nodup (src target : OptsObj) (k : String) (v : OptVal)
    (hn : (src.map Prod.fst).Nodup) (hl : src.lookup k = some v) :
    (assignObj target src).lookup k = some v := by
  induction src generalizing target with
  | nil => simp at hl
  | cons p t ih =>
    rcases p with ⟨k₁, v₁⟩
    simp only [List.map_cons, List.nodup_cons] at hn
    by_cases hk : k₁ = k
    · subst hk
      simp only [List.lookup_cons_self, Option.some.injEq] at hl
      rw [assignObj_cons, lookup_assignObj_of_none t _ _
        (lookup_eq_none_of_not_mem t _ hn.1), lookup_setEntry_self, hl]
    · rw [lookup_cons_ne _ _ _ _ (Ne.symm hk)] at hl
      rw [assignObj_cons, ih _ hn.2 hl]

theorem alias_override_sass (a : String) (ov : OptsObj)
    (h : ALIAS_OPTION_OVERRIDES.lookup a = some ov) :
    a = "sass" ∧ ov = [("indentedSyntax", OptVal.vB true)] := by
  by_cases ha : a = "sass"
  · subst ha
    refine ⟨rfl, ?_⟩
    simpa [ALIAS_OPTION_OVERRIDES] using h.symm
  · rw [ALIAS_OPTION_OVERRIDES, lookup_cons_ne _ _ _ _ ha] at h
    simp at h

/-! Lemmas about the markup container pattern. -/

theorem closeTag_ne_nil (tag : List Char) : closeTag tag ≠ [] := by
  simp [closeTag]

theorem occursAt_eq_false_of_le (pat s : List Char) (k : Nat) (hp : pat ≠ [])
    (h : s.length ≤ k) : occursAt pat s k = false := by
  unfold occursAt
  rw [List.drop_eq_nil_of_le h]
  cases pat with
  | nil => exact absurd rfl hp
  | cons c t => rfl

theorem occursAt_bound (pat s : List Char) (k : Nat) (hp : pat ≠ [])
    (h : occursAt pat s k = true) : k + pat.length ≤ s.length := by
  have hk : k ≤ s.length := by
    by_contra hgt
    push_neg at hgt
    rw [occursAt_eq_false_of_le pat s k hp (Nat.le_of_lt hgt)] at h
    exact Bool.false_ne_true h
  have hle := (List.isPrefixOf_iff_prefix.1 h).length_le
  rw [List.length_drop] at hle
  omega

theorem head?_drop_lt (s : List Char) (m : Nat) (c : Char)
    (h : (s.drop m).head? = some c) : m < s.length := by
  by_contra hge
  push_neg at hge
  rw [List.drop_eq_nil_of_le hge] at h
  simp at h

theorem lastOccurAux_spec (pat s : List Char) (start : Nat) :
    ∀ n k, lastOccurAux pat s start n = some k →
      start ≤ k ∧ occursAt pat s k = true ∧
        ∀ j, k < j → j < n → occursAt pat s j = false := by
  intro n
  induction n with
  | zero => intro k h; simp [lastOccurAux] at h
  | succ n ih =>
    intro k h
    rw [lastOccurAux] at h
    split at h
    · next hc =>
      cases h
      exact ⟨hc.1, hc.2, fun j hj hjn => by omega⟩
    · next hc =>
      obtain ⟨h1, h2, h3⟩ := ih k h
      refine ⟨h1, h2, fun j hj hjn => ?_⟩
      by_cases hje : j = n
      · subst hje
        rcases Bool.eq_false_or_eq_true (occursAt pat s j) with ht | hf
        · exact absurd ⟨by omega, ht⟩ hc
        · exact hf
      · exact h3 j hj (by omega)

theorem lastOccur_spec (pat s : List Char) (start k : Nat) (hp : pat ≠ [])
    (h : lastOccur pat s start = some k) :
    start ≤ k ∧ occursAt pat s k = true ∧
      ∀ j, k < j → occursAt pat s j = false := by
  obtain ⟨h1, h2, h3⟩ := lastOccurAux_spec pat s start (s.length + 1) k h
  refine ⟨h1, h2, fun j hj => ?_⟩
  by_cases hjn : j < s.length + 1
  · exact h3 j hj hjn
  · exact occursAt_eq_false_of_le pat s j hp (by omega)

theorem tryAlt1_inv (tag s : List Char) (j : Nat) (inner : Option (List Char)) (endPos : Nat)
    (h : tryAlt1 tag s j = some (inner, endPos)) :
    ∃ k, lastOccur (closeTag tag) s (j + 1) = some k ∧
      inner = some (sub s (j + 1) (k - (j + 1))) ∧
      endPos = k + (closeTag tag).length := by
  unfold tryAlt1 at h
  by_cases hgt : (s.drop j).head? = some '>'
  · rw [if_pos hgt] at h
    cases hlo : lastOccur (closeTag tag) s (j + 1) with
    | none => rw [hlo] at h; simp at h
    | some k =>
      rw [hlo] at h
      simp only [Option.some.injEq, Prod.mk.injEq] at h
      exact ⟨k, rfl, h.1.symm, h.2.symm⟩
  · rw [if_neg hgt] at h
    simp at h

theorem tryAlt2_inv (s : List Char) (j : Nat) (inner : Option (List Char)) (endPos : Nat)
    (h : tryAlt2 s j = some (inner, endPos)) :
    inner = none ∧ endPos = j + 2 ∧ (s.drop (j + 1)).head? = some '>' := by
  unfold tryAlt2 at h
  split at h
  · next hc =>
    simp only [Option.some.injEq, Prod.mk.injEq] at h
    exact ⟨h.1.symm, h.2.symm, hc.2⟩
  · simp at h

theorem tryAlts_inv (tag s : List Char) (j : Nat) (r : Option (List Char) × Nat)
    (h : tryAlts tag s j = some r) :
    tryAlt1 tag s j = some r ∨ (tryAlt1 tag s j = none ∧ tryAlt2 s j = some r) := by
  unfold tryAlts at h
  cases h1 : tryAlt1 tag s j with
  | none => rw [h1] at h; exact Or.inr ⟨rfl, h⟩
  | some r₁ =>
    rw [h1] at h
    simp only [Option.some.injEq] at h
    subst h
    exact Or.inl rfl

theorem findMarkupMatch_inv (tag s : List Char) (m : MarkupMatch)
    (h : findMarkupMatch tag s = some m) :
    m.index + m.fullLen ≤ s.length ∧
      ∀ v, m.inner = some v →
        occursAt (closeTag tag) s (m.index + m.fullLen - (closeTag tag).length) = true ∧
        ∀ j, m.index + m.fullLen - (closeTag tag).length < j →
          occursAt (closeTag tag) s j = false := by
  unfold findMarkupMatch at h
  obtain ⟨i, _, hi⟩ := List.exists_of_findSome?_eq_some h
  unfold tryAt at hi
  by_cases hop : occursAt (openTag tag) s i = true
  · rw [if_pos hop] at hi
    unfold tryAttrs at hi
    obtain ⟨attrLen, _, hal⟩ := List.exists_of_findSome?_eq_some hi
    dsimp only at hal
    cases hts : tryAlts tag s (i + 1 + tag.length + attrLen) with
    | none => rw [hts] at hal; simp at hal
    | some r =>
      rcases r with ⟨inner, endPos⟩
      rw [hts] at hal
      simp only [Option.some.injEq] at hal
      rcases tryAlts_inv tag s _ _ hts with h1 | ⟨_, h2⟩
      · obtain ⟨k, hlo, hinner, hend⟩ := tryAlt1_inv tag s _ _ _ h1
        obtain ⟨hk1, hk2, hk3⟩ :=
          lastOccur_spec (closeTag tag) s _ k (closeTag_ne_nil tag) hlo
        have hbound := occursAt_bound (closeTag tag) s k (closeTag_ne_nil tag) hk2
        subst hend hinner
        rw [← hal]
        constructor
        · simp only
          omega
        · intro v _
          have hkeq : i + (k + (closeTag tag).length - i) - (closeTag tag).length = k := by
            omega
          simp only
          rw [hkeq]
          exact ⟨hk2, hk3⟩
      · obtain ⟨hinner, hend, hhd⟩ := tryAlt2_inv s _ _ _ h2
        have hlt := head?_drop_lt s _ _ hhd
        subst hend hinner
        rw [← hal]
        constructor
        · simp only
          omega
        · intro v hv
          simp only at hv
          exact absurd hv (by simp)
  · rw [if_neg (by simpa using hop)] at hi
    simp at hi

theorem take_sub_drop (s : List Char) (i len : Nat) :
    s.take i ++ sub s i len ++ s.drop (i + len) = s := by
  unfold sub
  have h1 : s.drop (i + len) = (s.drop i).drop len := by
    rw [List.drop_drop, Nat.add_comm]
  rw [List.append_assoc, h1, List.take_append_drop, List.take_append_drop]

/-! Lemmas about option resolution. -/

theorem lookup_smStep (ctx : Context) (name : String) (opts : OptsObj)
    (k : String) (v : OptVal) (h : opts.lookup k = some v)
    (hp : ∀ p w, ctx.smMap.lookup name = some (p, w) → p ≠ k) :
    (smStep ctx name opts).lookup k = some v := by
  unfold smStep
  cases hsm : ctx.sourceMap
  · simpa using h
  · cases hsml : ctx.smMap.lookup name with
    | none => simpa using h
    | some pw =>
      rcases pw with ⟨p, w⟩
      simp only [if_true]
      rw [lookup_setEntry_ne _ _ _ _ (Ne.symm (hp p w hsml))]
      exact h

theorem mergedOpts_lookup_override (ctx : Context) (name aName : String)
    (nameOpts : Option TOpts) (ov : OptsObj) (k : String) (v : OptVal)
    (hov : ALIAS_OPTION_OVERRIDES.lookup aName = some ov)
    (hnodup : (ov.map Prod.fst).Nodup)
    (hkv : ov.lookup k = some v)
    (hne : aName ≠ name)
    (hp : ∀ p w, ctx.smMap.lookup name = some (p, w) → p ≠ k) :
    (mergedOpts ctx name (some aName) nameOpts none).lookup k = some v := by
  unfold mergedOpts
  simp only [Option.some_bind, hov, ne_eq, Option.some.injEq, hne,
    not_false_eq_true, if_true]
  exact lookup_smStep ctx name _ k v
    (lookup_assignObj_of_nodup ov _ k v hnodup hkv) hp

theorem mergedOpts_lookup_aliasOpts (ctx : Context) (name aName : String)
    (nameOpts : Option TOpts) (ao : OptsObj) (k : String) (v : OptVal)
    (hnodup : (ao.map Prod.fst).Nodup)
    (hkv : ao.lookup k = some v)
    (hne : aName ≠ name)
    (hp : ∀ p w, ctx.smMap.lookup name = some (p, w) → p ≠ k) :
    (mergedOpts ctx name (some aName) nameOpts (some (TOpts.obj ao))).lookup k = some v := by
  unfold mergedOpts
  simp only [Option.some_bind, ne_eq, Option.some.injEq, hne,
    not_false_eq_true, if_true]
  cases hov : ALIAS_OPTION_OVERRIDES.lookup aName with
  | none =>
    exact lookup_smStep ctx name _ k v
      (lookup_assignObj_of_nodup ao _ k v hnodup hkv) hp
  | some ov =>
    exact lookup_smStep ctx name _ k v
      (lookup_assignObj_of_nodup ao _ k v hnodup hkv) hp

theorem getTransformerOptions_not_shortcircuit (ctx : Context) (name aName : String)
    (hn : isFnOff (ctx.transformers.lookup name) = false)
    (ha : isFnOff (ctx.transformers.lookup aName) = false) :
    getTransformerOptions ctx name (some aName) =
      TOpts.obj (mergedOpts ctx name (some aName) (ctx.transformers.lookup name)
        (ctx.transformers.lookup aName)) := by
  unfold getTransformerOptions
  simp only [Option.some_bind]
  cases hno : ctx.transformers.lookup name with
  | none =>
    cases hao : ctx.transformers.lookup aName with
    | none => rfl
    | some oa =>
      cases oa with
      | off => rw [hao] at ha; simp [isFnOff] at ha
      | boolTrue => rfl
      | fn f => rw [hao] at ha; simp [isFnOff] at ha
      | obj o => rfl
  | some on_ =>
    cases on_ with
    | off => rw [hno] at hn; simp [isFnOff] at hn
    | fn f => rw [hno] at hn; simp [isFnOff] at hn
    | boolTrue =>
      cases hao : ctx.transformers.lookup aName with
      | none => rfl
      | some oa =>
        cases oa with
        | off => rw [hao] at ha; simp [isFnOff] at ha
        | boolTrue => rfl
        | fn f => rw [hao] at ha; simp [isFnOff] at ha
        | obj o => rfl
    | obj o =>
      cases hao : ctx.transformers.lookup aName with
      | none => rfl
      | some oa =>
        cases oa with
        | off => rw [hao] at ha; simp [isFnOff] at ha
        | boolTrue => rfl
        | fn f => rw [hao] at ha; simp [isFnOff] at ha
        | obj o₁ => rfl

/-! Concrete inputs used by the example theorems below. -/

/-- A trivial tag-info extractor for concrete examples: the raw block
content, no language annotation, no dependencies. -/
def plainTagInfo (f : SvelteFile) : TagInfo :=
  { content := f.content.getD [], filename := f.filename,
    lang := none, aliasName := none, dependencies := none,
    attributes := f.attributes }

/-- A style block already in the target language, carrying a pre-existing
dependency. -/
def cssBlockInfo : TagInfo :=
  { content := "a".toList, lang := some "css", aliasName := some "css",
    dependencies := some ["d"] }

/-- A configuration preserving `css` blocks. -/
def preserveCtx : Context :=
  { preserve := ["css"] }

/-- Claim C5: a block whose effective language or alias is in the configured
preserve list is returned as exactly its raw content: no map, no
dependencies (dropped, not merged), no preparation applied, and no
transformer module load. -/
theorem preserve_passthrough_drops_deps (ctx : Context) (ty : BlockType)
    (target L A : String) (info : TagInfo)
    (heff : effectiveLang ctx ty info = (some L, some A))
    (hpres : (ctx.preserve.contains L || ctx.preserve.contains A) = true) :
    getTransformerTo ctx ty target info =
      (some { code := info.content, map := none, dependencies := none,
              diagnostics := none }, []) := by
  simp only [getTransformerTo, heff, Option.getD_some]
  rw [if_pos hpres]

/-- Witness for C5 at a concrete preserved block. -/
theorem preserve_passthrough_drops_deps_witness :
    getTransformerTo preserveCtx BlockType.style "css" cssBlockInfo =
      (some { code := "a".toList, map := none, dependencies := none,
              diagnostics := none }, []) :=
  preserve_passthrough_drops_deps preserveCtx BlockType.style "css" "css" "css"
    cssBlockInfo rfl rfl

/-- Counterexample to claim C4 as stated: a preserved block whose effective
language equals the pipeline target is returned without its pre-existing
dependencies, so "returns ... together with the block's pre-existing
dependencies" fails for it. -/
theorem same_lang_preserved_drops_deps_cex :
    getTransformerTo preserveCtx BlockType.style "css" cssBlockInfo =
      (some { code := "a".toList, map := none, dependencies := none,
              diagnostics := none }, []) ∧
    cssBlockInfo.dependencies = some ["d"] ∧
    (getTransformerTo preserveCtx BlockType.style "css" cssBlockInfo).1 ≠
      some { code := cssBlockInfo.content, map := none,
             dependencies := cssBlockInfo.dependencies, diagnostics := none } := by
  refine ⟨by decide, rfl, by decide⟩

/-- Claim C4 (amended): for a block not in the preserve list whose effective
language equals the pipeline's target language, the pipeline returns the
prepared block content (the raw content when preparation leaves it
unchanged) together with the block's pre-existing dependencies, and no
transformer module is loaded or invoked. -/
theorem same_lang_skip_returns_prepared_content (ctx : Context) (ty : BlockType)
    (target A : String) (info : TagInfo)
    (heff : effectiveLang ctx ty info = (some target, some A))
    (hpres : (ctx.preserve.contains target || ctx.preserve.contains A) = false) :
    getTransformerTo ctx ty target info =
      (some { code := prepareContent (getTransformerOptions ctx target (some A))
                        info.content,
              map := none, dependencies := info.dependencies,
              diagnostics := none }, []) := by
  simp only [getTransformerTo, heff, Option.getD_some]
  rw [if_neg (by rw [hpres]; simp)]
  simp

/-- Witness for C4 at a concrete css-to-css block. -/
theorem same_lang_skip_returns_prepared_content_witness :
    getTransformerTo {} BlockType.style "css" cssBlockInfo =
      (some { code := "a".toList, map := none, dependencies := some ["d"],
              diagnostics := none }, []) := by
  have h := same_lang_skip_returns_prepared_content {} BlockType.style "css" "css"
    cssBlockInfo rfl rfl
  exact h.trans (by decide)

/-- Claim C8: `runTransformer` with the disabling marker resolves to exactly
the content passed through, with no dependencies field and no module load;
with a function option it calls the function with content, map, filename
and attributes and returns its result directly, again loading no module. -/
theorem runTransformer_disabled_and_function_shortcircuit
    (modules : Modules) (name : String) (args : TransformerArgs)
    (f : TransformerArgs → Processed) :
    runTransformer modules name TOpts.off args =
      (some { code := args.content, map := none, dependencies := none,
              diagnostics := none }, []) ∧
    runTransformer modules name (TOpts.fn f) args =
      (some (f { content := args.content, map := args.map,
                 filename := args.filename, attributes := args.attributes,
                 options := none }), []) :=
  ⟨rfl, rfl⟩

/-- Claim C9: after pipeline entry the effective language is never null:
both components of the effective pair are present; when the extracted lang
or alias is absent they fall back to the category default and its registry
resolution; and registry resolution of an unmapped alias returns the alias
itself, so the fallback never fails. -/
theorem effective_lang_never_null (ctx : Context) (ty : BlockType) (info : TagInfo) :
    (effectiveLang ctx ty info).1.isSome = true ∧
    (effectiveLang ctx ty info).2.isSome = true ∧
    ((info.lang = none ∨ info.aliasName = none) →
      effectiveLang ctx ty info =
        (some (getLanguageFromAlias ctx.registry (ctx.defaultFor ty)),
         some (ctx.defaultFor ty))) ∧
    (∀ reg a, reg.lookup a = none → getLanguageFromAlias reg a = a) := by
  refine ⟨?_, ?_, fun h => by rw [effectiveLang, if_pos h], fun reg a h => ?_⟩
  · unfold effectiveLang
    by_cases h : info.lang = none ∨ info.aliasName = none
    · rw [if_pos h]; rfl
    · rw [if_neg h]
      push_neg at h
      cases hl : info.lang with
      | none => exact absurd hl h.1
      | some L => simp
  · unfold effectiveLang
    by_cases h : info.lang = none ∨ info.aliasName = none
    · rw [if_pos h]; rfl
    · rw [if_neg h]
      push_neg at h
      cases hl : info.aliasName with
      | none => exact absurd hl h.2
      | some A => simp
  · rw [getLanguageFromAlias, h]; rfl

/-- Witness for C9 at a block with no language annotation and an unmapped
default alias. -/
theorem effective_lang_never_null_witness :
    effectiveLang {} BlockType.script (plainTagInfo { content := some "x".toList }) =
      (some "javascript", some "javascript") ∧
    getLanguageFromAlias [] "javascript" = "javascript" := by
  have h := effective_lang_never_null {} BlockType.script
    (plainTagInfo { content := some "x".toList })
  exact ⟨(h.2.2.1 (Or.inl rfl)).trans (by decide), h.2.2.2 [] "javascript" rfl⟩

/-- Claim C7: for every alias distinct from its canonical name that has an
entry in the alias-override table, when neither the name-keyed nor the
alias-keyed user option is a function or the disabling marker, the resolved
options include the override key/value even when the user supplied no
options for that alias (as long as the source-map injection for the name
does not target that key), and alias-keyed object options merged afterwards
win over both the override and the name-keyed options. -/
theorem alias_override_included_and_alias_opts_win (ctx : Context)
    (name aName : String) (ov : OptsObj)
    (hov : ALIAS_OPTION_OVERRIDES.lookup aName = some ov)
    (hne : aName ≠ name)
    (hn : isFnOff (ctx.transformers.lookup name) = false)
    (ha : isFnOff (ctx.transformers.lookup aName) = false) :
    (ctx.transformers.lookup aName = none →
      ∀ k v, ov.lookup k = some v →
        (∀ p w, ctx.smMap.lookup name = some (p, w) → p ≠ k) →
        (getTransformerOptions ctx name (some aName)).lookupKey k = some v) ∧
    (∀ ao, ctx.transformers.lookup aName = some (TOpts.obj ao) →
      (ao.map Prod.fst).Nodup →
      ∀ k v, ao.lookup k = some v →
        (∀ p w, ctx.smMap.lookup name = some (p, w) → p ≠ k) →
        (getTransformerOptions ctx name (some aName)).lookupKey k = some v) := by
  have hshape := getTransformerOptions_not_shortcircuit ctx name aName hn ha
  constructor
  · intro hnone k v hkv hp
    rw [hshape, hnone]
    show (mergedOpts ctx name (some aName) (ctx.transformers.lookup name) none).lookup k
      = some v
    obtain ⟨-, hov_eq⟩ := alias_override_sass aName ov hov
    exact mergedOpts_lookup_override ctx name aName _ ov k v hov
      (by rw [hov_eq]; decide) hkv hne hp
  · intro ao hao hnodup k v hkv hp
    rw [hshape, hao]
    show (mergedOpts ctx name (some aName) (ctx.transformers.lookup name)
      (some (TOpts.obj ao))).lookup k = some v
    exact mergedOpts_lookup_aliasOpts ctx name aName _ ao k v hnodup hkv hne hp

/-- A configuration with options only under the canonical `scss` name and
none under the `sass` alias. -/
def sassCtx : Context :=
  { transformers := [("scss", TOpts.obj [("x", OptVal.vS "1")])] }

/-- Witness for C7: the `sass` alias of `scss` receives the
indented-syntax override although the user configured nothing under
`sass`. -/
theorem alias_override_included_and_alias_opts_win_witness :
    (getTransformerOptions sassCtx "scss" (some "sass")).lookupKey "indentedSyntax" =
      some (OptVal.vB true) := by
  have h := alias_override_included_and_alias_opts_win sassCtx "scss" "sass"
    [("indentedSyntax", OptVal.vB true)] rfl (by decide) rfl rfl
  exact h.1 rfl "indentedSyntax" (OptVal.vB true) rfl
    (fun p w hp => by simp [sassCtx] at hp)

/-- Claim C6: when the markup container pattern does not match the (possibly
replace-transformed) document, the markup entry point runs the markup
pipeline on the entire document content with an empty attributes mapping and
returns that pipeline's result directly — no splicing and no error of its
own. -/
theorem markup_no_match_whole_document_fallback (ctx : Context)
    (gti : SvelteFile → TagInfo) (content c : List Char) (filename : Option String)
    (l1 : List String)
    (hr : replaceStage ctx content filename = (some c, l1))
    (hm : findMarkupMatch (lowerStr ctx.markupTagName) c = none) :
    markup ctx gti content filename =
      ((markupTransformer ctx gti
          { content := some c, attributes := [], filename := filename }).1,
       l1 ++ (markupTransformer ctx gti
          { content := some c, attributes := [], filename := filename }).2) := by
  unfold markup
  rw [hr]
  simp only
  rw [hm]

/-- A document with no markup container tag. -/
def noTagDoc : List Char := "<div></div><style>p</style>".toList

/-- Witness for C6 on a concrete document without a container tag. -/
theorem markup_no_match_whole_document_fallback_witness :
    markup {} plainTagInfo noTagDoc none =
      (some { code := noTagDoc, map := none, dependencies := none,
              diagnostics := none }, []) := by
  have h := markup_no_match_whole_document_fallback {} plainTagInfo noTagDoc noTagDoc
    none [] rfl (by decide)
  exact h.trans (by decide)

/-- Claim C1: when the markup container pattern matches, the markup entry
point splices the transformed inner code into the document at the original
match's start offset and length: the output is the document's prefix before
the span, then the transformed code, then the suffix after the span, both
preserved byte-for-byte, and the span really is the document slice at those
offsets. -/
theorem markup_splices_matched_span_exactly (ctx : Context)
    (gti : SvelteFile → TagInfo) (content c : List Char) (filename : Option String)
    (l1 l2 : List String) (m : MarkupMatch) (t : Processed)
    (hr : replaceStage ctx content filename = (some c, l1))
    (hm : findMarkupMatch (lowerStr ctx.markupTagName) c = some m)
    (hpipe : markupTransformer ctx gti
        { content := m.inner, attributes := parseAttributes m.attrs,
          filename := filename } = (some t, l2)) :
    markup ctx gti content filename =
      (some { code := c.take m.index ++ t.code ++ c.drop (m.index + m.fullLen),
              map := t.map, dependencies := t.dependencies, diagnostics := none },
       l1 ++ l2) ∧
    m.index + m.fullLen ≤ c.length ∧
    c = c.take m.index ++ sub c m.index m.fullLen ++ c.drop (m.index + m.fullLen) := by
  refine ⟨?_, (findMarkupMatch_inv _ c m hm).1, (take_sub_drop c m.index m.fullLen).symm⟩
  unfold markup
  rw [hr]
  simp only
  rw [hm]
  simp only
  rw [hpipe]

/-- A document whose matched span is surrounded by text that itself contains
the literal substring of the container tag. -/
def spliceDoc : List Char := "A<template>h</template>B<template>C".toList

/-- Witness for C1: the span `<template>h</template>` at offset 1 and length
22 is replaced by the transformed inner code, with the prefix `A` and the
suffix `B<template>C` — which contains the literal tag text — preserved. -/
theorem markup_splices_matched_span_exactly_witness :
    markup {} plainTagInfo spliceDoc none =
      (some { code := "AhB<template>C".toList, map := none, dependencies := none,
              diagnostics := none }, []) := by
  have h := markup_splices_matched_span_exactly {} plainTagInfo spliceDoc spliceDoc
    none [] [] ⟨1, 22, [], some "h".toList⟩ { code := "h".toList }
    rfl (by decide) (by decide)
  exact h.1.trans (by decide)

/-- A document with two closing container tags for tag name `t`. -/
def twoCloseDoc : List Char := "<t>a</t>b</t>".toList

/-- Counterexample to claim C2 as stated: the pattern's inner capture is not
non-greedy — on a document with two closing tags the matched inner span is
`a</t>b`, ending at the last closing tag, not `a` as a first-closing-tag
(lazy) match would produce. -/
theorem markupPattern_inner_not_lazy_cex :
    findMarkupMatch "t".toList twoCloseDoc =
      some ⟨0, 13, [], some "a</t>b".toList⟩ ∧
    (findMarkupMatch "t".toList twoCloseDoc).map MarkupMatch.inner ≠
      some (some "a".toList) :=
  ⟨by decide, by decide⟩

/-- Claim C2 (amended): the markup pattern's attribute capture is lazy but
its inner capture `([\s\S]*)` is greedy: whenever the pattern matches with
an inner span, the matched span ends with the closing tag at its last
occurrence in the document — the closing tag occurs at that position and at
no later one. -/
theorem markupPattern_inner_greedy (tag s : List Char) (m : MarkupMatch)
    (v : List Char) (hm : findMarkupMatch tag s = some m) (hv : m.inner = some v) :
    occursAt (closeTag tag) s (m.index + m.fullLen - (closeTag tag).length) = true ∧
    ∀ j, m.index + m.fullLen - (closeTag tag).length < j →
      occursAt (closeTag tag) s j = false :=
  (findMarkupMatch_inv tag s m hm).2 v hv

/-- Witness for C2's amended claim on the two-closing-tag document: the
closing tag occurs at position 9 (the last occurrence) and not at 10. -/
theorem markupPattern_inner_greedy_witness :
    occursAt (closeTag "t".toList) twoCloseDoc 9 = true ∧
    occursAt (closeTag "t".toList) twoCloseDoc 10 = false := by
  have h := markupPattern_inner_greedy "t".toList twoCloseDoc
    ⟨0, 13, [], some "a</t>b".toList⟩ "a</t>b".toList (by decide) rfl
  exact ⟨h.1, h.2 10 (by decide)⟩

theorem replaceStage_tagName_irrel (ctx : Context) (n : List Char)
    (content : List Char) (filename : Option String) :
    replaceStage { ctx with markupTagName := n } content filename =
      replaceStage ctx content filename := rfl

theorem markupTransformer_tagName_irrel (ctx : Context) (n : List Char)
    (gti : SvelteFile → TagInfo) (f : SvelteFile) :
    markupTransformer { ctx with markupTagName := n } gti f =
      markupTransformer ctx gti f := rfl

/-- A document whose container tag appears only in uppercase. -/
def upperDoc : List Char := "<TEMPLATE>x</TEMPLATE>".toList

/-- Counterexample to claim C3 as stated: under the default configuration
(tag name `template`) a document containing the container tag only in
uppercase is not matched — the markup entry point returns the whole-document
fallback instead of splicing. -/
theorem markup_doc_case_sensitive_cex :
    findMarkupMatch (lowerStr "template".toList) upperDoc = none ∧
    markup {} plainTagInfo upperDoc none =
      (some { code := upperDoc, map := none, dependencies := none,
              diagnostics := none }, []) :=
  ⟨by decide, by decide⟩

/-- Claim C3 (amended): the configured markup tag name is case-normalized:
two configurations whose tag names agree after lowercasing behave
identically on every document, so the configuration is case-insensitive;
matching against the document itself is case-sensitive, a document carrying
the tag only in another letter case falling back to whole-document
transformation (the counterexample records this on a concrete document). -/
theorem markup_config_tag_case_normalized (ctx : Context)
    (gti : SvelteFile → TagInfo) (content : List Char) (filename : Option String)
    (n₁ n₂ : List Char) (hl : lowerStr n₁ = lowerStr n₂) :
    markup { ctx with markupTagName := n₁ } gti content filename =
      markup { ctx with markupTagName := n₂ } gti content filename := by
  unfold markup
  rw [replaceStage_tagName_irrel ctx n₁ content filename,
    replaceStage_tagName_irrel ctx n₂ content filename]
  rcases hrep : replaceStage ctx content filename with ⟨co, l1⟩
  cases co with
  | none => rfl
  | some c =>
    simp only [markupTransformer_tagName_irrel]
    have hm : lowerStr (Context.markupTagName { ctx with markupTagName := n₁ }) =
        lowerStr (Context.markupTagName { ctx with markupTagName := n₂ }) := hl
    rw [hm]

/-- Witness for C3: an uppercase-configured tag name behaves exactly like
its lowercase form on a concrete document carrying a lowercase tag. -/
theorem markup_config_tag_case_normalized_witness :
    markup { markupTagName := "TEMPLATE".toList } plainTagInfo
        "A<template>h</template>B".toList none =
      markup { markupTagName := "template".toList } plainTagInfo
        "A<template>h</template>B".toList none := by
  have h := markup_config_tag_case_normalized {} plainTagInfo
    "A<template>h</template>B".toList none "TEMPLATE".toList "template".toList
    (by decide)
  exact h

/-- Claim C10: the style entry point discards the dependencies reported by
the unconditional global-style stage: the returned dependencies are exactly
the style pipeline's dependencies merged with the postcss stage's reported
dependencies when that stage runs (and the pipeline's alone when it does
not), while the global-style stage contributes only its code and its map to
the result. -/
theorem style_discards_global_style_deps (ctx : Context)
    (gti : SvelteFile → TagInfo) (content : List Char) (attributes : Attrs)
    (filename : Option String) (tr : Processed) (l0 l1 l2 : List String)
    (c1 : List Char) (m1 : Option String) (d1 : Option (List String))
    (c2 : List Char) (m2 : Option String)
    (hpi : ctx.postcssInstalled = true)
    (h0 : styleTransformer ctx gti
        { content := some content, attributes := attributes,
          filename := filename } = (some tr, l0))
    (h1 : postcssStage ctx attributes filename tr.code tr.map tr.dependencies =
      (some (c1, m1, d1), l1))
    (h2 : globalStyleStage ctx attributes filename c1 m1 = (some (c2, m2), l2)) :
    style ctx gti content attributes filename =
      (some { code := c2, map := m2, dependencies := d1, diagnostics := none },
       l0 ++ l1 ++ l2) ∧
    (∀ code map deps t l,
      truthyOpt (ctx.transformers.lookup "postcss") = true →
      runTransformer ctx.modules "postcss" (getTransformerOptions ctx "postcss" none)
          { content := code, filename := filename, map := map,
            attributes := attributes } = (some t, l) →
      postcssStage ctx attributes filename code map deps =
        (some (t.code, t.map, concat deps t.dependencies), l)) ∧
    (truthyOpt (ctx.transformers.lookup "postcss") = false →
      ∀ code map deps,
        postcssStage ctx attributes filename code map deps =
          (some (code, map, deps), [])) := by
  refine ⟨?_, ?_, ?_⟩
  · unfold style
    rw [h0]
    simp only [hpi, if_true]
    rw [h1]
    simp only
    rw [h2]
  · intro code map deps t l htru hrun
    unfold postcssStage
    rw [if_pos htru, hrun]
  · intro hfls code map deps
    unfold postcssStage
    rw [if_neg (by rw [hfls]; simp)]

/-- A style configuration with a postcss stage configured, the optional
tooling installed, and both post-stages backed by concrete modules whose
reported dependencies differ. -/
def styleCtx : Context :=
  { transformers := [("postcss", TOpts.obj [])],
    modules :=
      [("postcss", fun a =>
          { code := 'P' :: a.content, dependencies := some ["p"] }),
       ("globalStyle", fun a =>
          { code := 'G' :: a.content, map := some "gm",
            dependencies := some ["g"] })],
    postcssInstalled := true }

/-- Witness for C10: the global-style module reports dependency `g`, yet the
style result carries only the postcss dependency `p`, together with the
global-style code and map. -/
theorem style_discards_global_style_deps_witness :
    style styleCtx plainTagInfo "b".toList [] none =
      (some { code := "GPb".toList, map := some "gm", dependencies := some ["p"],
              diagnostics := none }, ["postcss", "globalStyle"]) := by
  have h := style_discards_global_style_deps styleCtx plainTagInfo "b".toList [] none
    { code := "b".toList } [] ["postcss"] ["globalStyle"]
    "Pb".toList none (some ["p"]) "GPb".toList (some "gm")
    rfl (by decide) (by decide) (by decide)
  exact h.1.trans (by decide)

end SveltePreprocess
